import Mathlib

/-
  Verification of the mcppotluck MLB statistics service.

  Shallow embedding of the computational parts of
  src/mcppotluck/helpers.py and src/mcppotluck/baseball_server.py.

  Conventions of the embedding:
  * Python arbitrary-precision integers are modelled as Int.
  * Python floats are modelled as real numbers; float powers are Real.rpow
    and the builtin round (round-half-to-even on floats) is py_round below.
    Properties that depend on IEEE-754 overflow or NaN behaviour are outside
    this idealization and are settled separately.
  * Python dicts are modelled as insertion-ordered association lists,
    with assignment pydictInsert replacing the value in place when the key
    is present and appending a fresh pair otherwise (CPython dict semantics).
  * Python strings are modelled as String where only equality matters
    (player-map keys), and as List Char where lowercasing, stripping and
    substring tests matter (team-name lookup); str.lower and str.strip are
    modelled per character, which is exact for the ASCII data involved.
  * Network reads are the inputs of the functions that consume them: each
    function takes the already-fetched upstream documents as an argument.
-/

namespace Mcppotluck

/-- Result record of the Pythagorean calculator: the dict
`{pythagorean_wins, pythagorean_losses, pythagorean_win_pct}`
built in helpers.py lines 94-98 and 110-114. -/
structure PythagoreanResult where
  pythagorean_wins : Int
  pythagorean_losses : Int
  pythagorean_win_pct : Real

/-- Python builtin `round` on floats, idealized over the reals:
round-half-to-even (bankers rounding), as CPython does for floats. -/
noncomputable def py_round (x : Real) : Int :=
  if Int.fract x = 1 / 2 then
    (if Even ⌊x⌋ then ⌊x⌋ else ⌊x⌋ + 1)
  else round x

namespace helpers

/-- Embedding of helpers.calculate_pythagorean_wins
(src/mcppotluck/helpers.py lines 71-114).
Guard clause first; otherwise the Bill James formula with the
intermediate variables of the source. The default exponent 1.83 of the
source is passed explicitly by callers here. -/
noncomputable def calculate_pythagorean_wins (runs_scored runs_allowed games_played : Int)
    (exponent : Real) : PythagoreanResult :=
  if runs_scored ≤ 0 ∨ runs_allowed ≤ 0 ∨ games_played ≤ 0 then
    { pythagorean_wins := 0
      pythagorean_losses := 0
      pythagorean_win_pct := 0 }
  else
    let rs_exp : Real := Real.rpow (runs_scored : Real) exponent
    let ra_exp : Real := Real.rpow (runs_allowed : Real) exponent
    let pythagorean_win_pct : Real := rs_exp / (rs_exp + ra_exp)
    let pythagorean_wins : Int := py_round (pythagorean_win_pct * (games_played : Real))
    { pythagorean_wins := pythagorean_wins
      pythagorean_losses := games_played - pythagorean_wins
      pythagorean_win_pct := pythagorean_win_pct }

end helpers

namespace baseball_server

/-- Embedding of baseball_server.calculate_pythagorean_wins
(src/mcppotluck/baseball_server.py lines 11-54), a second textual copy of
the helper; transcribed independently from that copy. -/
noncomputable def calculate_pythagorean_wins (runs_scored runs_allowed games_played : Int)
    (exponent : Real) : PythagoreanResult :=
  if runs_scored ≤ 0 ∨ runs_allowed ≤ 0 ∨ games_played ≤ 0 then
    { pythagorean_wins := 0
      pythagorean_losses := 0
      pythagorean_win_pct := 0 }
  else
    let rs_exp : Real := Real.rpow (runs_scored : Real) exponent
    let ra_exp : Real := Real.rpow (runs_allowed : Real) exponent
    let pythagorean_win_pct : Real := rs_exp / (rs_exp + ra_exp)
    let pythagorean_wins : Int := py_round (pythagorean_win_pct * (games_played : Real))
    { pythagorean_wins := pythagorean_wins
      pythagorean_losses := games_played - pythagorean_wins
      pythagorean_win_pct := pythagorean_win_pct }

end baseball_server

section PyDict

variable {κ α : Type} [DecidableEq κ]

/-- CPython dict assignment `m[k] = v` on an insertion-ordered
association list: replace the value in place when the key is present,
append a fresh pair at the end otherwise. -/
def pydictInsert : List (κ × α) → κ → α → List (κ × α)
  | [], k, v => [(k, v)]
  | p :: m, k, v => if p.1 = k then (k, v) :: m else p :: pydictInsert m k v

/-- A sequence of dict assignments applied from left to right. -/
def applyWrites (m : List (κ × α)) (W : List (κ × α)) : List (κ × α) :=
  W.foldl (fun acc w => pydictInsert acc w.1 w.2) m

/-- The value of the last write with a given key within a write
sequence, if any. -/
def lastVal : List (κ × α) → κ → Option α
  | [], _ => none
  | w :: W, k =>
    match lastVal W k with
    | some v => some v
    | none => if w.1 = k then some w.2 else none

/-- The key sequence of a dict. -/
def keysOf (m : List (κ × α)) : List κ := m.map Prod.fst

/-- Dict lookup for a key, returning the stored pair. -/
def dictFind (m : List (κ × α)) (k : κ) : Option (κ × α) :=
  m.find? (fun p => decide (p.1 = k))

end PyDict

/-- Python str() on an integer, used for every key of player2team
(the source writes player2team[str(cur_player_id)] and reads
player2team[str(player_id)]). -/
def py_str (n : Int) : String := toString n

/-- The static 30-team catalog mlb_teams of helpers.py lines 9-40,
in source order. -/
def mlb_teams : List (String × String) :=
  [("141", "Toronto Blue Jays"),
   ("147", "New York Yankees"),
   ("111", "Boston Red Sox"),
   ("139", "Tampa Bay Rays"),
   ("110", "Baltimore Orioles"),
   ("116", "Detroit Tigers"),
   ("142", "Minnesota Twins"),
   ("118", "Kansas City Royals"),
   ("114", "Cleveland Guardians"),
   ("145", "Chicago White Sox"),
   ("117", "Houston Astros"),
   ("136", "Seattle Mariners"),
   ("140", "Texas Rangers"),
   ("108", "Los Angeles Angels"),
   ("133", "Athletics"),
   ("143", "Philadelphia Phillies"),
   ("121", "New York Mets"),
   ("146", "Miami Marlins"),
   ("144", "Atlanta Braves"),
   ("120", "Washington Nationals"),
   ("112", "Chicago Cubs"),
   ("158", "Milwaukee Brewers"),
   ("138", "St. Louis Cardinals"),
   ("113", "Cincinnati Reds"),
   ("134", "Pittsburgh Pirates"),
   ("119", "Los Angeles Dodgers"),
   ("137", "San Francisco Giants"),
   ("135", "San Diego Padres"),
   ("109", "Arizona Diamondbacks"),
   ("115", "Colorado Rockies")]

/-- One player record of a fetched 40-man roster, as produced by
helpers.get_roster (helpers.py lines 416-421): MLB id and full name
(the position field plays no role in the claims). -/
structure PlayerEntry where
  player_id : Int
  player_name : String
deriving DecidableEq

/-- One value of the player2team dict (helpers.py line 656):
the dict with keys team_id, team_name, player_name. -/
structure TeamInfo where
  team_id : String
  team_name : String
  player_name : String
deriving DecidableEq

/-- The flattened sequence of dict writes performed by the two nested
loops of initplayermap, given the fetched roster of each catalog team
(the upstream rosters, indexed by the team-id key of mlb_teams). -/
def writesFor (rosters : String → List PlayerEntry) : List (String × TeamInfo) :=
  mlb_teams.flatMap fun t =>
    (rosters t.1).map fun p =>
      (py_str p.player_id, TeamInfo.mk t.1 t.2 p.player_name)

/-- Embedding of helpers.initplayermap (helpers.py lines 643-657):
for each catalog team, for each player of its fetched roster, assign
player2team[str(player_id)] = the team/player record. The prior state
of the global player2team dict is the second argument; the upstream
roster documents are the first. -/
def initplayermap (rosters : String → List PlayerEntry)
    (player2team : List (String × TeamInfo)) : List (String × TeamInfo) :=
  mlb_teams.foldl
    (fun m t =>
      (rosters t.1).foldl
        (fun acc p => pydictInsert acc (py_str p.player_id) (TeamInfo.mk t.1 t.2 p.player_name))
        m)
    player2team

/-- Embedding of helpers.getTeamForPlayer (helpers.py lines 659-678):
return player2team[str(inPlayerID)] when present, the Unknown sentinel
triple otherwise. -/
def getTeamForPlayer (player2team : List (String × TeamInfo)) (inPlayerID : Int) : TeamInfo :=
  match dictFind player2team (py_str inPlayerID) with
  | some p => p.2
  | none => TeamInfo.mk "Unknown" "Unknown" "Unknown"

/-- One record of the people array of the upstream name-search response
consumed by lookup_player_id: full name and MLB id. -/
structure Person where
  fullName : String
  id : Int
deriving DecidableEq

/-- The dict returned by lookup_player_id: name and id always set, the
two team keys set only when the id is found in player2team (absent dict
keys are modelled as none). -/
structure PlayerLookupResult where
  player_name : String
  player_id : Int
  team_id : Option String
  team_name : Option String
deriving DecidableEq

/-- Embedding of helpers.lookup_player_id (helpers.py lines 564-598).
The upstream search response is the argument searchPeople: none models a
response without a people key, some l a response whose people array is l.
First match wins; zero matches yield the NA/0 sentinel; afterwards the
team keys are set when str(player_id) is a key of player2team. -/
def lookup_player_id (player2team : List (String × TeamInfo))
    (searchPeople : Option (List Person)) : PlayerLookupResult :=
  let base : String × Int :=
    match searchPeople with
    | some (p :: _) => (p.fullName, p.id)
    | _ => ("NA", 0)
  match dictFind player2team (py_str base.2) with
  | some e => ⟨base.1, base.2, some e.2.team_id, some e.2.team_name⟩
  | none => ⟨base.1, base.2, none, none⟩

/-- Python str.lower modelled per character (exact on ASCII). -/
def pyLower (s : List Char) : List Char := s.map Char.toLower

/-- Python str.strip: drop whitespace from both ends. -/
def pyStrip (s : List Char) : List Char :=
  ((s.dropWhile Char.isWhitespace).reverse.dropWhile Char.isWhitespace).reverse

/-- The input normalization of lookup_team_id: name.lower().strip(). -/
def pyNormalize (s : List Char) : List Char := pyStrip (pyLower s)

/-- Python list/str containment helper: pyStartsWith a b tests whether a
is a prefix of b. -/
def pyStartsWith : List Char → List Char → Bool
  | [], _ => true
  | _ :: _, [] => false
  | a :: as, b :: bs => a == b && pyStartsWith as bs

/-- Python substring containment needle in hay. -/
def pyIn (needle : List Char) : List Char → Bool
  | [] => needle.isEmpty
  | c :: rest => pyStartsWith needle (c :: rest) || pyIn needle rest

/-- One team record of the standings documents scanned by
lookup_team_id: display name and MLB id, in the iteration order of the
two nested loops over both leagues. -/
structure TeamEntry where
  name : List Char
  id : Int
deriving DecidableEq

/-- The name2id / name2beautiful dicts of lookup_team_id (helpers.py
lines 617-627), keyed by the cleaned name and holding id and display
name; both dicts always share their keys, so they are built as one. -/
def buildNameMap (catalog : List TeamEntry) : List (List Char × (Int × List Char)) :=
  catalog.foldl
    (fun m e => pydictInsert m (pyNormalize e.name) (e.id, e.name))
    []

/-- Embedding of helpers.lookup_team_id (helpers.py lines 600-641).
The catalog argument is the flattened team sequence of the two fetched
standings documents. Exact cleaned-name dict hit first; otherwise a loop
over the name map that overwrites ret_data at every entry whose cleaned
name contains the normalized input; empty result modelled as none. -/
def lookup_team_id (catalog : List TeamEntry) (team_name : List Char) :
    Option (Int × List Char) :=
  let usename := pyNormalize team_name
  let maps := buildNameMap catalog
  match maps.find? (fun p => decide (p.1 = usename)) with
  | some p => some p.2
  | none => maps.foldl (fun acc p => if pyIn usename p.1 then some p.2 else acc) none

/-- Modelled from the spec: the team lookup as the spec states it in
claim C5, identical to lookup_team_id except that the substring
fallback returns the FIRST entry of the name map whose cleaned name
contains the normalized input, instead of letting later matches
overwrite earlier ones. -/
def lookup_team_id_first_match (catalog : List TeamEntry) (team_name : List Char) :
    Option (Int × List Char) :=
  let usename := pyNormalize team_name
  let maps := buildNameMap catalog
  match maps.find? (fun p => decide (p.1 = usename)) with
  | some p => some p.2
  | none =>
    match maps.find? (fun p => pyIn usename p.1) with
    | some p => some p.2
    | none => none

/-- The season guard shared verbatim by all endpoints of
baseball_server.py (lines 96-98, 168-170, 253-255, 341-343, 405-407,
514-516): start from the wall-clock year, replace it by the season value
only when the value is not None, strictly below the current year and
strictly above 1876. -/
def resolve_season (now_year : Int) (season : Option Int) : Int :=
  match season with
  | none => now_year
  | some s => if s < now_year ∧ s > 1876 then s else now_year

/-- The declared FastAPI default of every season query parameter:
the source signatures read season: Optional[int] = 2025, so the
framework fills 2025 (not None) when the parameter is absent. -/
def season_query_default : Int := 2025

/-- The season actually used by an endpoint for a request: an absent
query parameter becomes the declared default 2025 before the guard
runs. -/
def endpoint_season (now_year : Int) (provided : Option Int) : Int :=
  resolve_season now_year (some (provided.getD season_query_default))

end Mcppotluck

namespace Mcppotluck

/-- Claim C1: whenever runs_scored, runs_allowed or games_played is
non-positive, calculate_pythagorean_wins returns the zeroed result
(wins 0, losses 0, win percentage 0.0); the function is total, so no
error is possible. -/
theorem pythagorean_nonpositive_zeroed (runs_scored runs_allowed games_played : Int)
    (exponent : Real)
    (h : runs_scored ≤ 0 ∨ runs_allowed ≤ 0 ∨ games_played ≤ 0) :
    helpers.calculate_pythagorean_wins runs_scored runs_allowed games_played exponent =
      { pythagorean_wins := 0, pythagorean_losses := 0, pythagorean_win_pct := 0 } := by
  unfold helpers.calculate_pythagorean_wins
  rw [if_pos h]

/-- Witness for C1: the zeroed branch at the concrete input (0, 5, 162). -/
theorem pythagorean_nonpositive_zeroed_witness :
    helpers.calculate_pythagorean_wins 0 5 162 (183 / 100) =
      { pythagorean_wins := 0, pythagorean_losses := 0, pythagorean_win_pct := 0 } :=
  pythagorean_nonpositive_zeroed 0 5 162 (183 / 100) (Or.inl (by decide))

/-- Claim C2: for positive runs_scored, runs_allowed and games_played,
the Pythagorean wins and losses sum exactly to games_played, because the
losses are computed as the complement games_played - wins. -/
theorem pythagorean_complement_exact (runs_scored runs_allowed games_played : Int)
    (exponent : Real)
    (h1 : 0 < runs_scored) (h2 : 0 < runs_allowed) (h3 : 0 < games_played) :
    (helpers.calculate_pythagorean_wins runs_scored runs_allowed games_played
        exponent).pythagorean_wins +
      (helpers.calculate_pythagorean_wins runs_scored runs_allowed games_played
        exponent).pythagorean_losses = games_played := by
  unfold helpers.calculate_pythagorean_wins
  rw [if_neg (by omega : ¬(runs_scored ≤ 0 ∨ runs_allowed ≤ 0 ∨ games_played ≤ 0))]
  dsimp only
  omega

/-- Witness for C2 at the spec example input (850, 650, 162) with the
default exponent 1.83. -/
theorem pythagorean_complement_exact_witness :
    (0 : Int) < 850 ∧ (0 : Int) < 650 ∧ (0 : Int) < 162 ∧
      (helpers.calculate_pythagorean_wins 850 650 162 (183 / 100)).pythagorean_wins +
        (helpers.calculate_pythagorean_wins 850 650 162 (183 / 100)).pythagorean_losses =
        162 :=
  ⟨by decide, by decide, by decide,
    pythagorean_complement_exact 850 650 162 (183 / 100) (by decide) (by decide) (by decide)⟩

section PyDictLemmas

variable {κ α : Type} [DecidableEq κ]

theorem mem_keysOf_pydictInsert (m : List (κ × α)) (k : κ) (v : α) (q : κ) :
    q ∈ keysOf (pydictInsert m k v) ↔ q = k ∨ q ∈ keysOf m := by
  induction m with
  | nil => simp [pydictInsert, keysOf]
  | cons p m ih =>
    by_cases hp : p.1 = k
    · simp only [pydictInsert, if_pos hp, keysOf, List.map_cons, List.mem_cons]
      subst hp
      simp only [keysOf] at *
      tauto
    · simp only [pydictInsert, if_neg hp, keysOf, List.map_cons, List.mem_cons]
      simp only [keysOf] at ih
      rw [ih]
      tauto

theorem keysOf_pydictInsert_of_mem {m : List (κ × α)} {k : κ} (v : α)
    (h : k ∈ keysOf m) : keysOf (pydictInsert m k v) = keysOf m := by
  induction m with
  | nil => simp [keysOf] at h
  | cons p m ih =>
    by_cases hp : p.1 = k
    · simp only [pydictInsert, if_pos hp, keysOf, List.map_cons]
      rw [hp]
    · simp only [keysOf, List.map_cons, List.mem_cons] at h
      rcases h with h | h
      · exact absurd h.symm hp
      · simp only [pydictInsert, if_neg hp, keysOf, List.map_cons]
        rw [show List.map Prod.fst (pydictInsert m k v) = keysOf (pydictInsert m k v) from rfl,
          ih h]
        rfl

theorem pydictInsert_of_not_mem {m : List (κ × α)} {k : κ} (v : α)
    (h : k ∉ keysOf m) : pydictInsert m k v = m ++ [(k, v)] := by
  induction m with
  | nil => rfl
  | cons p m ih =>
    simp only [keysOf, List.map_cons, List.mem_cons, not_or] at h
    have hp : p.1 ≠ k := fun he => h.1 he.symm
    simp only [pydictInsert, if_neg hp, List.cons_append, List.cons.injEq, true_and]
    exact ih h.2

theorem nodup_keysOf_pydictInsert {m : List (κ × α)} (k : κ) (v : α)
    (h : (keysOf m).Nodup) : (keysOf (pydictInsert m k v)).Nodup := by
  by_cases hk : k ∈ keysOf m
  · rw [keysOf_pydictInsert_of_mem v hk]; exact h
  · rw [pydictInsert_of_not_mem v hk]
    simp only [keysOf, List.map_append, List.map_cons, List.map_nil]
    rw [List.nodup_append]
    refine ⟨h, List.nodup_singleton _, ?_⟩
    intro a ha hb
    rw [List.mem_singleton] at hb
    exact hk (hb ▸ ha)

theorem dictFind_cons (p : κ × α) (m : List (κ × α)) (k : κ) :
    dictFind (p :: m) k = if p.1 = k then some p else dictFind m k := by
  by_cases hp : p.1 = k
  · simp [dictFind, List.find?, hp]
  · simp [dictFind, List.find?, hp]

theorem dictFind_eq_none {m : List (κ × α)} {k : κ} (h : k ∉ keysOf m) :
    dictFind m k = none := by
  apply List.find?_eq_none.2
  intro x hx
  simp only [decide_eq_true_eq]
  intro hxk
  have hmem : x.1 ∈ keysOf m := by simpa [keysOf] using List.mem_map_of_mem Prod.fst hx
  exact h (hxk ▸ hmem)

theorem mem_keysOf_of_dictFind_some {m : List (κ × α)} {k : κ} {p : κ × α}
    (h : dictFind m k = some p) : k ∈ keysOf m := by
  have hm : p ∈ m := List.mem_of_find?_eq_some h
  have hk : p.1 = k := by
    have := List.find?_some h
    simpa using this
  exact hk ▸ (by simpa [keysOf] using List.mem_map_of_mem Prod.fst hm)

theorem dictFind_pydictInsert (m : List (κ × α)) (k : κ) (v : α) (q : κ) :
    dictFind (pydictInsert m k v) q = if q = k then some (k, v) else dictFind m q := by
  induction m with
  | nil =>
    by_cases hq : q = k
    · simp [pydictInsert, dictFind, List.find?, hq]
    · have hk : ¬k = q := fun h => hq h.symm
      simp [pydictInsert, dictFind, List.find?, hq, hk]
  | cons p m ih =>
    by_cases hp : p.1 = k
    · simp only [pydictInsert, if_pos hp]
      by_cases hq : q = k
      · simp [dictFind_cons, hq]
      · rw [dictFind_cons, dictFind_cons, if_neg (fun h : (k, v).1 = q => hq h.symm),
          if_neg (fun h : p.1 = q => hq (hp ▸ h).symm), if_neg hq]
    · simp only [pydictInsert, if_neg hp]
      by_cases hpq : p.1 = q
      · have hq : ¬q = k := fun h => hp (hpq.trans h)
        rw [dictFind_cons, dictFind_cons, if_pos hpq, if_pos hpq, if_neg hq]
      · rw [dictFind_cons, dictFind_cons, if_neg hpq, if_neg hpq, ih]

theorem mem_pydictInsert {m : List (κ × α)} {k : κ} {v : α} {e : κ × α}
    (h : e ∈ pydictInsert m k v) : e ∈ m ∨ e = (k, v) := by
  induction m with
  | nil => simpa [pydictInsert] using h
  | cons p m ih =>
    by_cases hp : p.1 = k
    · simp only [pydictInsert, if_pos hp, List.mem_cons] at h
      rcases h with h | h
      · exact Or.inr h
      · exact Or.inl (List.mem_cons_of_mem _ h)
    · simp only [pydictInsert, if_neg hp, List.mem_cons] at h
      rcases h with h | h
      · exact Or.inl (h ▸ List.mem_cons_self _ _)
      · rcases ih h with h | h
        · exact Or.inl (List.mem_cons_of_mem _ h)
        · exact Or.inr h

theorem applyWrites_nil (m : List (κ × α)) : applyWrites m [] = m := rfl

theorem applyWrites_cons (m : List (κ × α)) (w : κ × α) (W : List (κ × α)) :
    applyWrites m (w :: W) = applyWrites (pydictInsert m w.1 w.2) W := rfl

theorem applyWrites_append (m : List (κ × α)) (W₁ W₂ : List (κ × α)) :
    applyWrites m (W₁ ++ W₂) = applyWrites (applyWrites m W₁) W₂ := by
  simp [applyWrites, List.foldl_append]

theorem dictFind_applyWrites (W : List (κ × α)) (m : List (κ × α)) (k : κ) :
    dictFind (applyWrites m W) k =
      match lastVal W k with
      | some v => some (k, v)
      | none => dictFind m k := by
  induction W generalizing m with
  | nil => simp [applyWrites_nil, lastVal]
  | cons w W ih =>
    rw [applyWrites_cons, ih]
    cases hl : lastVal W k with
    | some v => simp [lastVal, hl]
    | none =>
      simp only [lastVal, hl, dictFind_pydictInsert]
      by_cases hk : k = w.1
      · subst hk; simp
      · rw [if_neg hk, if_neg (fun h : w.1 = k => hk h.symm)]

theorem mem_keysOf_applyWrites (W : List (κ × α)) (m : List (κ × α)) (k : κ) :
    k ∈ keysOf (applyWrites m W) ↔ k ∈ keysOf m ∨ ∃ w ∈ W, w.1 = k := by
  induction W generalizing m with
  | nil => simp [applyWrites_nil]
  | cons w W ih =>
    rw [applyWrites_cons, ih, mem_keysOf_pydictInsert]
    constructor
    · rintro (⟨h | h⟩ | ⟨x, hx, hk⟩)
      · exact Or.inr ⟨w, List.mem_cons_self _ _, h.symm⟩
      · exact Or.inl h
      · exact Or.inr ⟨x, List.mem_cons_of_mem _ hx, hk⟩
    · rintro (h | ⟨x, hx, hk⟩)
      · exact Or.inl (Or.inr h)
      · rcases List.mem_cons.1 hx with hxw | hxW
        · exact Or.inl (Or.inl (hxw ▸ hk).symm)
        · exact Or.inr ⟨x, hxW, hk⟩

theorem mem_applyWrites {W : List (κ × α)} {m : List (κ × α)} {e : κ × α}
    (h : e ∈ applyWrites m W) : e ∈ m ∨ e ∈ W := by
  induction W generalizing m with
  | nil => exact Or.inl h
  | cons w W ih =>
    rw [applyWrites_cons] at h
    rcases ih h with h | h
    · rcases mem_pydictInsert h with h | h
      · exact Or.inl h
      · exact Or.inr (by simp [h])
    · exact Or.inr (List.mem_cons_of_mem _ h)

theorem nodup_keysOf_applyWrites (W : List (κ × α)) {m : List (κ × α)}
    (h : (keysOf m).Nodup) : (keysOf (applyWrites m W)).Nodup := by
  induction W generalizing m with
  | nil => exact h
  | cons w W ih => exact ih (nodup_keysOf_pydictInsert _ _ h)

theorem keysOf_applyWrites_of_subset (W : List (κ × α)) {m : List (κ × α)}
    (h : ∀ w ∈ W, w.1 ∈ keysOf m) : keysOf (applyWrites m W) = keysOf m := by
  induction W generalizing m with
  | nil => rfl
  | cons w W ih =>
    rw [applyWrites_cons]
    have hw : w.1 ∈ keysOf m := h w (List.mem_cons_self _ _)
    have hkeys : keysOf (pydictInsert m w.1 w.2) = keysOf m :=
      keysOf_pydictInsert_of_mem _ hw
    rw [ih (fun x hx => hkeys ▸ h x (List.mem_cons_of_mem _ hx)), hkeys]

theorem lastVal_isSome_of_mem {W : List (κ × α)} {w : κ × α} (h : w ∈ W) :
    ∃ v, lastVal W w.1 = some v := by
  induction W with
  | nil => simp at h
  | cons a W ih =>
    rcases List.mem_cons.1 h with h | h
    · cases hl : lastVal W w.1 with
      | some v => exact ⟨v, by simp [lastVal, hl]⟩
      | none => exact ⟨a.2, by subst h; simp [lastVal, hl]⟩
    · obtain ⟨v, hv⟩ := ih h
      exact ⟨v, by simp [lastVal, hv]⟩

theorem lastVal_eq_none {W : List (κ × α)} {k : κ} (h : ∀ w ∈ W, w.1 ≠ k) :
    lastVal W k = none := by
  induction W with
  | nil => rfl
  | cons w W ih =>
    have hw : w.1 ≠ k := h w (List.mem_cons_self _ _)
    simp [lastVal, ih (fun x hx => h x (List.mem_cons_of_mem _ hx)), hw]

theorem dict_ext {m₁ m₂ : List (κ × α)} (hk : keysOf m₁ = keysOf m₂)
    (hnd : (keysOf m₁).Nodup) (hf : ∀ k, dictFind m₁ k = dictFind m₂ k) :
    m₁ = m₂ := by
  induction m₁ generalizing m₂ with
  | nil =>
    cases m₂ with
    | nil => rfl
    | cons q t₂ => simp [keysOf] at hk
  | cons p t ih =>
    cases m₂ with
    | nil => simp [keysOf] at hk
    | cons q t₂ =>
      simp only [keysOf, List.map_cons, List.cons.injEq] at hk
      obtain ⟨hpq, ht⟩ := hk
      simp only [keysOf, List.map_cons, List.nodup_cons] at hnd
      have hhead : p = q := by
        have h1 := hf p.1
        rw [dictFind_cons, dictFind_cons, if_pos rfl, if_pos hpq.symm] at h1
        exact Option.some.inj h1
      refine List.cons_eq_cons.2 ⟨hhead, ih ht hnd.2 fun k => ?_⟩
      by_cases hkp : k = p.1
      · subst hkp
        have h1 : p.1 ∉ keysOf t := by simpa [keysOf] using hnd.1
        have h2 : p.1 ∉ keysOf t₂ := by
          have hkeq : keysOf t₂ = keysOf t := by simp [keysOf, ht]
          rw [hkeq]; exact h1
        rw [dictFind_eq_none h1, dictFind_eq_none h2]
      · have h1 := hf k
        rw [dictFind_cons, dictFind_cons, if_neg (fun h : p.1 = k => hkp h.symm),
          if_neg (fun h : q.1 = k => hkp (hpq ▸ h).symm)] at h1
        exact h1

theorem applyWrites_idem (W : List (κ × α)) {m : List (κ × α)}
    (h : (keysOf m).Nodup) :
    applyWrites (applyWrites m W) W = applyWrites m W := by
  have hsub : ∀ w ∈ W, w.1 ∈ keysOf (applyWrites m W) := by
    intro w hw
    obtain ⟨v, hv⟩ := lastVal_isSome_of_mem hw
    have hfind : dictFind (applyWrites m W) w.1 = some (w.1, v) := by
      rw [dictFind_applyWrites, hv]
    exact mem_keysOf_of_dictFind_some hfind
  refine dict_ext (keysOf_applyWrites_of_subset W hsub)
    (nodup_keysOf_applyWrites W (nodup_keysOf_applyWrites W h)) fun k => ?_
  rw [dictFind_applyWrites, dictFind_applyWrites]
  cases hl : lastVal W k with
  | some v => rfl
  | none => rfl

end PyDictLemmas

theorem initplayermap_eq_applyWrites (rosters : String → List PlayerEntry)
    (m : List (String × TeamInfo)) :
    initplayermap rosters m = applyWrites m (writesFor rosters) := by
  unfold initplayermap writesFor
  generalize mlb_teams = ts
  induction ts generalizing m with
  | nil => rfl
  | cons t ts ih =>
    rw [List.foldl_cons, List.flatMap_cons, applyWrites_append, ih]
    congr 1
    rw [applyWrites, List.foldl_map]

theorem applyWrites_of_fresh {κ α : Type} [DecidableEq κ] :
    ∀ {W : List (κ × α)} {m : List (κ × α)}, (keysOf W).Nodup →
      (∀ w ∈ W, w.1 ∉ keysOf m) → applyWrites m W = m ++ W := by
  intro W
  induction W with
  | nil => intro m _ _; simp [applyWrites_nil]
  | cons w W ih =>
    intro m hnd hfresh
    simp only [keysOf, List.map_cons, List.nodup_cons] at hnd
    rw [applyWrites_cons,
      pydictInsert_of_not_mem w.2 (hfresh w (List.mem_cons_self _ _))]
    have hfresh2 : ∀ x ∈ W, x.1 ∉ keysOf (m ++ [(w.1, w.2)]) := by
      intro x hx
      simp only [keysOf, List.map_append, List.map_cons, List.map_nil, List.mem_append,
        List.mem_singleton, not_or]
      refine ⟨by simpa [keysOf] using hfresh x (List.mem_cons_of_mem _ hx), fun hx1 => ?_⟩
      exact hnd.1 (hx1 ▸ List.mem_map_of_mem Prod.fst hx)
    rw [ih (by simpa [keysOf] using hnd.2) hfresh2]
    simp

/-- Claim C6: building over the startup state (the module-level
player2team = empty dict), the keys of the built map are exactly the
string forms of the player ids present in some catalog team roster, each
stored value was written from a catalog team and one of its roster
players, and a player id absent from every roster is looked up as the
Unknown sentinel triple by getTeamForPlayer. -/
theorem initplayermap_key_characterization (rosters : String → List PlayerEntry) :
    (∀ k : String, k ∈ keysOf (initplayermap rosters []) ↔
        ∃ t ∈ mlb_teams, ∃ p ∈ rosters t.1, py_str p.player_id = k)
    ∧ (∀ (k : String) (info : TeamInfo), (k, info) ∈ initplayermap rosters [] →
        ∃ t ∈ mlb_teams, ∃ p ∈ rosters t.1,
          py_str p.player_id = k ∧ info = TeamInfo.mk t.1 t.2 p.player_name)
    ∧ (∀ pid : Int,
        (∀ t ∈ mlb_teams, ∀ p ∈ rosters t.1, py_str p.player_id ≠ py_str pid) →
        getTeamForPlayer (initplayermap rosters []) pid =
          TeamInfo.mk "Unknown" "Unknown" "Unknown") := by
  refine ⟨?_, ?_, ?_⟩
  · intro k
    rw [initplayermap_eq_applyWrites, mem_keysOf_applyWrites]
    simp only [keysOf, List.map_nil, List.not_mem_nil, false_or, writesFor,
      List.mem_flatMap, List.mem_map]
    constructor
    · rintro ⟨w, ⟨t, ht, p, hp, rfl⟩, hk⟩
      exact ⟨t, ht, p, hp, hk⟩
    · rintro ⟨t, ht, p, hp, hk⟩
      exact ⟨_, ⟨t, ht, p, hp, rfl⟩, hk⟩
  · intro k info h
    rw [initplayermap_eq_applyWrites] at h
    rcases mem_applyWrites h with h | h
    · simp at h
    · simp only [writesFor, List.mem_flatMap, List.mem_map] at h
      obtain ⟨t, ht, p, hp, heq⟩ := h
      obtain ⟨h1, h2⟩ := Prod.mk.injEq .. ▸ heq
      exact ⟨t, ht, p, hp, h1, h2.symm⟩
  · intro pid h
    have hnone : lastVal (writesFor rosters) (py_str pid) = none := by
      apply lastVal_eq_none
      intro w hw
      simp only [writesFor, List.mem_flatMap, List.mem_map] at hw
      obtain ⟨t, ht, p, hp, rfl⟩ := hw
      exact h t ht p hp
    show (match dictFind (initplayermap rosters []) (py_str pid) with
      | some p => p.2
      | none => TeamInfo.mk "Unknown" "Unknown" "Unknown") =
      TeamInfo.mk "Unknown" "Unknown" "Unknown"
    rw [initplayermap_eq_applyWrites, dictFind_applyWrites, hnone]
    rfl

/-- Witness for C6: a player id on no roster resolves to the sentinel. -/
theorem initplayermap_key_characterization_witness :
    getTeamForPlayer (initplayermap (fun _ => []) []) 1000 =
      TeamInfo.mk "Unknown" "Unknown" "Unknown" :=
  (initplayermap_key_characterization (fun _ => [])).2.2 1000 (by decide)

/-- Counterexample to claim C7: initplayermap does NOT clear the prior
player2team dict, so a build pass over roster data that derives no
entries at all (every upstream roster empty) still keeps a stale prior
entry, while the same pass from the startup state yields the empty map.
The map after a build therefore does not contain exactly the entries
derived from the roster data. -/
theorem initplayermap_not_overwrite :
    ("1", TeamInfo.mk "OLD" "Old Team" "Ghost") ∈
        initplayermap (fun _ => []) [("1", TeamInfo.mk "OLD" "Old Team" "Ghost")]
      ∧ initplayermap (fun _ => []) [] = [] := by
  exact ⟨by decide, rfl⟩

/-- Claim C7 as amended: a build pass is additive over the prior map:
prior keys all survive, and an entry whose key is not written by the
pass survives unchanged; still, for a well-formed prior map (distinct
keys, as a dict guarantees), running the builder twice with unchanged
upstream roster data gives the same map as running it once. -/
theorem initplayermap_additive_idempotent (rosters : String → List PlayerEntry)
    (player2team : List (String × TeamInfo)) :
    (∀ k, k ∈ keysOf player2team → k ∈ keysOf (initplayermap rosters player2team))
    ∧ (∀ k, lastVal (writesFor rosters) k = none →
        dictFind (initplayermap rosters player2team) k = dictFind player2team k)
    ∧ ((keysOf player2team).Nodup →
        initplayermap rosters (initplayermap rosters player2team) =
          initplayermap rosters player2team) := by
  refine ⟨?_, ?_, ?_⟩
  · intro k hk
    rw [initplayermap_eq_applyWrites, mem_keysOf_applyWrites]
    exact Or.inl hk
  · intro k hk
    rw [initplayermap_eq_applyWrites, dictFind_applyWrites, hk]
  · intro hnd
    simp only [initplayermap_eq_applyWrites]
    exact applyWrites_idem _ hnd

/-- Witness for C7 as amended: a concrete stale key survives, and the
second pass is a no-op. -/
theorem initplayermap_additive_idempotent_witness :
    "1" ∈ keysOf (initplayermap (fun _ => []) [("1", TeamInfo.mk "OLD" "Old Team" "Ghost")])
    ∧ initplayermap (fun _ => [])
        (initplayermap (fun _ => []) [("1", TeamInfo.mk "OLD" "Old Team" "Ghost")]) =
      initplayermap (fun _ => []) [("1", TeamInfo.mk "OLD" "Old Team" "Ghost")] :=
  ⟨(initplayermap_additive_idempotent (fun _ => []) _).1 "1" (by decide),
   (initplayermap_additive_idempotent (fun _ => []) _).2.2 (by decide)⟩

/-- Claim C8: a name-search response with no people key, or with an
empty people array, yields the sentinel result player_name NA and
player_id 0, and no team keys are set, because the string key 0 is
never a key of the player2team index (its keys are roster player ids). -/
theorem lookup_player_zero_matches_sentinel (player2team : List (String × TeamInfo))
    (searchPeople : Option (List Person))
    (hzero : searchPeople = none ∨ searchPeople = some [])
    (hkey : ∀ e ∈ player2team, e.1 ≠ py_str 0) :
    lookup_player_id player2team searchPeople =
      { player_name := "NA", player_id := 0, team_id := none, team_name := none } := by
  have hfind : dictFind player2team (py_str 0) = none := by
    apply dictFind_eq_none
    intro hmem
    simp only [keysOf, List.mem_map] at hmem
    obtain ⟨e, he, h1⟩ := hmem
    exact hkey e he h1
  rcases hzero with h | h <;> subst h <;> simp [lookup_player_id, hfind]

/-- Witness for C8: an empty people array against a nonempty index. -/
theorem lookup_player_zero_matches_sentinel_witness :
    lookup_player_id [("592450", TeamInfo.mk "147" "New York Yankees" "Aaron Judge")]
        (some []) =
      { player_name := "NA", player_id := 0, team_id := none, team_name := none } :=
  lookup_player_zero_matches_sentinel _ _ (Or.inr rfl) (by decide)

/-- Claim C9, evaluated at the divergence point: the source declares
season: Optional[int] = 2025, so an HTTP request without a season
parameter reaches the guard carrying 2025, not None. With the current
calendar year at 2026, an absent season therefore resolves to 2025 and
not to the current year, contradicting the per-endpoint documentation
(Defaults to the current year if not provided). A season value that is
really None does resolve to the current year, as the last conjunct
records. -/
theorem season_absent_defaults_to_2025 :
    endpoint_season 2026 none = 2025 ∧ (2025 : Int) ≠ 2026 ∧
      resolve_season 2026 none = 2026 := by
  refine ⟨by decide, by decide, rfl⟩

theorem buildNameMap_eq_map {catalog : List TeamEntry}
    (hnd : (catalog.map fun x => pyNormalize x.name).Nodup) :
    buildNameMap catalog =
      catalog.map fun x => (pyNormalize x.name, (x.id, x.name)) := by
  have hb : buildNameMap catalog =
      applyWrites [] (catalog.map fun x => (pyNormalize x.name, (x.id, x.name))) := by
    rw [applyWrites, List.foldl_map]
    rfl
  rw [hb, applyWrites_of_fresh (by simpa [keysOf, List.map_map, Function.comp] using hnd)
    (by simp [keysOf])]
  rfl

theorem find?_nameMap {catalog : List TeamEntry} {e : TeamEntry}
    (he : e ∈ catalog)
    (hnd : (catalog.map fun x => pyNormalize x.name).Nodup) :
    (catalog.map fun x => (pyNormalize x.name, (x.id, x.name))).find?
        (fun p => decide (p.1 = pyNormalize e.name)) =
      some (pyNormalize e.name, (e.id, e.name)) := by
  induction catalog with
  | nil => simp at he
  | cons a t ih =>
    simp only [List.map_cons, List.nodup_cons] at hnd
    rcases List.mem_cons.1 he with rfl | het
    · simp [List.find?]
    · have hne : ¬pyNormalize a.name = pyNormalize e.name := by
        intro hcontra
        exact hnd.1 (hcontra ▸ List.mem_map_of_mem (fun x => pyNormalize x.name) het)
      simp only [List.map_cons, List.find?, decide_eq_true_eq, hne, decide_False]
      exact ih het hnd.2

/-- Claim C4: when the normalized input equals the cleaned name of a
catalog entry (the catalog names being pairwise distinct after cleaning,
as the 30 real team names are), lookup_team_id answers with exactly that
entry through the exact-match dict hit; the substring fallback cannot
contribute, since it only runs when ret_data is still empty. -/
theorem lookup_team_exact_match_priority (catalog : List TeamEntry) (input : List Char)
    (e : TeamEntry)
    (hnd : (catalog.map fun x => pyNormalize x.name).Nodup)
    (he : e ∈ catalog)
    (hmatch : pyNormalize input = pyNormalize e.name) :
    lookup_team_id catalog input = some (e.id, e.name) := by
  unfold lookup_team_id
  dsimp only
  rw [hmatch, buildNameMap_eq_map hnd, find?_nameMap he hnd]

/-- Witness for C4, the example of the spec: input new york yankees
against a catalog holding the New York Yankees and the New York Mets
resolves to the Yankees entry. -/
theorem lookup_team_exact_match_priority_witness :
    lookup_team_id
        [TeamEntry.mk "New York Yankees".toList 147,
         TeamEntry.mk "New York Mets".toList 121]
        "new york yankees".toList =
      some (147, "New York Yankees".toList) :=
  lookup_team_exact_match_priority _ _ (TeamEntry.mk "New York Yankees".toList 147)
    (by decide) (by decide) (by decide)

theorem foldl_last_match {α β : Type} (P : α → Bool) (f : α → β) :
    ∀ (l : List α) (acc : Option β),
      l.foldl (fun acc x => if P x then some (f x) else acc) acc =
        match l.reverse.find? P with
        | some x => some (f x)
        | none => acc := by
  intro l
  induction l with
  | nil => intro acc; rfl
  | cons a l ih =>
    intro acc
    rw [List.foldl_cons, ih, List.reverse_cons, List.find?_append]
    cases hl : l.reverse.find? P with
    | some x => simp [Option.or]
    | none =>
      by_cases hPa : P a
      · simp [Option.or, List.find?, hPa]
      · simp [Option.or, List.find?, hPa]

/-- Counterexample to claim C5: the substring-fallback loop of
lookup_team_id never breaks, so a later match overwrites an earlier
one. For the catalog (New York Yankees, New York Mets) and the input
new york, which exactly matches no cleaned name and is a substring of
both, the first matching entry is the Yankees one, yet the code
returns the Mets entry. lookup_team_id_first_match is the lookup as
the claim words it (first matching entry). -/
theorem lookup_team_substring_first_refuted :
    lookup_team_id
        [TeamEntry.mk "New York Yankees".toList 147,
         TeamEntry.mk "New York Mets".toList 121]
        "new york".toList = some (121, "New York Mets".toList)
    ∧ lookup_team_id_first_match
        [TeamEntry.mk "New York Yankees".toList 147,
         TeamEntry.mk "New York Mets".toList 121]
        "new york".toList = some (147, "New York Yankees".toList)
    ∧ ((121 : Int), "New York Mets".toList) ≠ ((147 : Int), "New York Yankees".toList) :=
  ⟨by decide, by decide, by decide⟩

/-- Claim C5 as amended: when no exact cleaned-name match exists, the
result is the LAST entry of the name map, in iteration order, whose
cleaned full name contains the normalized input as a substring (none
when no entry contains it). -/
theorem lookup_team_substring_last_match (catalog : List TeamEntry) (input : List Char)
    (hnoexact : ∀ p ∈ buildNameMap catalog, p.1 ≠ pyNormalize input) :
    lookup_team_id catalog input =
      match (buildNameMap catalog).reverse.find?
          (fun p => pyIn (pyNormalize input) p.1) with
      | some p => some p.2
      | none => none := by
  unfold lookup_team_id
  dsimp only
  have hfind : (buildNameMap catalog).find?
      (fun p => decide (p.1 = pyNormalize input)) = none :=
    List.find?_eq_none.2 fun x hx => by simpa using hnoexact x hx
  rw [hfind, foldl_last_match (fun p => pyIn (pyNormalize input) p.1) Prod.snd]
  cases List.find? (fun p => pyIn (pyNormalize input) p.1) (buildNameMap catalog).reverse <;>
    simp

/-- Witness for C5 as amended: with no exact match, new york resolves
to the later of the two containing entries, the Mets. -/
theorem lookup_team_substring_last_match_witness :
    lookup_team_id
        [TeamEntry.mk "New York Yankees".toList 147,
         TeamEntry.mk "New York Mets".toList 121]
        "new york".toList = some (121, "New York Mets".toList) :=
  (lookup_team_substring_last_match
      [TeamEntry.mk "New York Yankees".toList 147,
       TeamEntry.mk "New York Mets".toList 121]
      "new york".toList (by decide)).trans (by decide)

/-- Claim C10: the two textual copies of the Pythagorean calculator, in
helpers.py and baseball_server.py, are extensionally equal: they agree on
every input. -/
theorem pythagorean_copies_extensionally_equal
    (runs_scored runs_allowed games_played : Int) (exponent : Real) :
    helpers.calculate_pythagorean_wins runs_scored runs_allowed games_played exponent =
      baseball_server.calculate_pythagorean_wins runs_scored runs_allowed games_played
        exponent := rfl

end Mcppotluck
